import Mathlib

/-!
Verification of the halley message-dispatch core.

Shallow embedding of:
* `src/unnamed/part_000` — `NodeHttpTransport` (the reference HTTP transport):
  the response handler of `request`, the socket-error handler, and their
  interplay with `Dispatcher.transportDown`.
* `src/unnamed/part_001` — `Dispatcher`: `sendMessage` / envelope bookkeeping,
  `handleResponse` (reply correlation and connectivity transitions),
  `_attemptSend` / `_awaitRetry` (the retry loop).

The Scheduler's own source file is not part of the sources; where a claim
depends on its behaviour, it is modelled from the specification (see the
doc comments marked "Modelled from the spec").
-/

namespace Halley

/-! ## JavaScript values returned by JSON.parse

`JSON.parse` of a reply body yields an arbitrary JSON value; the transport
only inspects its truthiness (`if (replies)`), so we embed JSON values with
JavaScript's truthiness on them. -/

/-- A JSON value as produced by `JSON.parse`. -/
inductive Json where
  | null : Json
  | bool (b : Bool) : Json
  | num (n : Int) : Json
  | str (s : String) : Json
  | arr (elems : List Json) : Json
  | obj (fields : List (String × Json)) : Json
deriving Repr

/-- JavaScript truthiness of a JSON value: `null`, `false`, `0` and `""` are
falsy, everything else (including empty arrays and objects) is truthy. -/
def Json.truthy : Json → Bool
  | .null => false
  | .bool b => b
  | .num n => n != 0
  | .str s => s != ""
  | .arr _ => true
  | .obj _ => true

/-! ## NodeHttpTransport (`src/unnamed/part_000`)

`request` builds a promise and wires three handlers onto the HTTP request:
the response callback (status check, body accumulation, `end` parsing), the
socket `error` handler, and cancellation. We embed each handler as a pure
function from its inputs to the ordered list of observable actions it
performs, in the order the code performs them. -/

/-- The error kind used by the transport when rejecting: every `reject` in
`NodeHttpTransport.request` wraps a `TransportError`. -/
inductive TErr where
  | transportError (msg : String) : TErr
deriving Repr

/-- Observable actions of the transport's handlers, in program order:
settling the request promise, signalling the dispatcher that the transport
is down, reading the response body, and forwarding decoded replies to
`_receive`. `down` carries the transport instance (`self`) passed to
`this._dispatcher.transportDown(self)`. -/
inductive TEv where
  | resolve : TEv
  | reject (e : TErr) : TEv
  | down (transport : Nat) : TEv
  | bodyRead : TEv
  | receive (replies : Json) : TEv
deriving Repr

/-- Embedding of the response callback of `NodeHttpTransport.request`
(`part_000` lines 32–64).  `self` identifies the transport instance,
`status` is `response.statusCode`, and `parsed` is the outcome of
`JSON.parse` on the accumulated body (`none` = the parse threw).

The code resolves or rejects on the status alone; on a non-2xx status it
rejects, signals down and returns before any body handler is installed.
On a 2xx status it resolves first, then accumulates the body, and at `end`
either signals down (parse failure or falsy result) or forwards the parsed
replies to `self._receive`. -/
def requestOnResponse (self : Nat) (status : Nat) (parsed : Option Json) : List TEv :=
  let successful := 200 ≤ status && status < 300
  if successful then
    TEv.resolve ::
    TEv.bodyRead ::
    (match parsed with
     | none => [TEv.down self]
     | some replies =>
       if replies.truthy then [TEv.receive replies] else [TEv.down self])
  else
    [TEv.reject (.transportError ("HTTP Status " ++ toString status)), TEv.down self]

/-- Embedding of the socket `error` handler of `NodeHttpTransport.request`
(`part_000` lines 67–69): it rejects the promise with a `TransportError`
built from the error's message, and does nothing else. -/
def requestOnError (msg : String) : List TEv :=
  [TEv.reject (.transportError msg)]

/-- A pool-level action produced by the dispatcher. -/
inductive PoolAct where
  | down (transport : Nat) : PoolAct
deriving Repr

/-- Embedding of `Dispatcher.transportDown` (`part_001` lines 226–228): it
forwards the transport instance to `this._pool.down(transport)`. -/
def transportDown (transport : Nat) : PoolAct :=
  PoolAct.down transport

/-! ## Dispatcher envelope bookkeeping (`src/unnamed/part_001`)

`this._envelopes` maps a message id to its in-flight envelope; the envelope
holds the pending promise of the whole `sendMessage` operation.  We embed
the map as an association list from ids to promise identities (`pid`), and
track, alongside it, every operation ever started (`ops`), which promises
have settled (`settled`), how many Schedulers have been constructed
(`schedulers`), and one entry per deletion of an envelope from the map
(`removals`, recording the deleted promise identity). -/

/-- Dispatcher state relevant to envelope bookkeeping. -/
structure DState where
  envelopes : List (String × Nat)
  ops : List (Nat × String)
  settled : List Nat
  removals : List Nat
  schedulers : Nat
  nextPid : Nat
deriving Repr

/-- The dispatcher starts with an empty envelope map (`part_001` line 24). -/
def DState.init : DState :=
  { envelopes := [], ops := [], settled := [], removals := [], schedulers := 0, nextPid := 0 }

/-- Association-list lookup by message id (the read `this._envelopes[id]`). -/
def alookup {β : Type} (id : String) : List (String × β) → Option β
  | [] => none
  | e :: rest => if e.1 = id then some e.2 else alookup id rest

/-- Association-list lookup by promise identity. -/
def plookup (pid : Nat) : List (Nat × String) → Option String
  | [] => none
  | e :: rest => if e.1 = pid then some e.2 else plookup pid rest

/-- Embedding of `Dispatcher.sendMessage` (`part_001` lines 86–122), restricted
to its envelope bookkeeping.  If an envelope for `message.id` is already
in flight, the existing `envelope.promise` is returned unchanged (lines
92–95).  Otherwise a fresh envelope is stored under the id, a new Scheduler
is constructed, and the operation's promise is created and returned. -/
def sendMessage (s : DState) (id : String) : DState × Nat :=
  match alookup id s.envelopes with
  | some pid => (s, pid)
  | none =>
    ({ envelopes := (id, s.nextPid) :: s.envelopes,
       ops := (s.nextPid, id) :: s.ops,
       settled := s.settled,
       removals := s.removals,
       schedulers := s.schedulers + 1,
       nextPid := s.nextPid + 1 }, s.nextPid)

/-- Embedding of the settlement of one `sendMessage` operation: the promise
chain built at `part_001` lines 105–119 ends in
`.finally(function() { delete this._envelopes[id]; })`, which runs exactly
once when the promise settles (success, error, or cancellation) and deletes
the entry stored under the operation's message id.  A promise that has
already settled never runs its `finally` handler again. -/
def settleOp (s : DState) (pid : Nat) : DState :=
  match plookup pid s.ops with
  | none => s
  | some id =>
    if pid ∈ s.settled then s
    else
      { s with
        settled := pid :: s.settled,
        envelopes := s.envelopes.filter (fun e => e.1 != id),
        removals := (s.envelopes.filter (fun e => e.1 == id)).map Prod.snd ++ s.removals }

/-- Embedding of `Dispatcher._cancelPending` (`part_001` lines 64–73), the
path taken by `close()`/`destroy()`: the envelope map is swapped for a fresh
empty object (removing every entry once), and every pending promise is
cancelled (so it settles).  The cancelled operations' `finally` handlers
then run against the new, empty map and delete nothing further. -/
def cancelPending (s : DState) : DState :=
  { s with
    envelopes := [],
    settled := s.envelopes.map Prod.snd ++ s.settled,
    removals := s.envelopes.map Prod.snd ++ s.removals }

/-- The envelope-affecting operations of a dispatcher run. -/
inductive DOp where
  | send (id : String) : DOp
  | settle (pid : Nat) : DOp
  | close : DOp

/-- One step of the dispatcher's envelope bookkeeping. -/
def dstep (s : DState) : DOp → DState
  | .send id => (sendMessage s id).1
  | .settle pid => settleOp s pid
  | .close => cancelPending s

/-- A dispatcher run: the envelope bookkeeping after a sequence of
operations, starting from a freshly constructed dispatcher. -/
def drun (ops : List DOp) : DState :=
  ops.foldl dstep DState.init

/-- The envelope-map invariant of the dispatcher. -/
structure EnvInv (s : DState) : Prop where
  envKeysNodup : (s.envelopes.map Prod.fst).Nodup
  envPidsNodup : (s.envelopes.map Prod.snd).Nodup
  opsKeysNodup : (s.ops.map Prod.fst).Nodup
  opsFresh : ∀ p ∈ s.ops.map Prod.fst, p < s.nextPid
  settledOps : ∀ p ∈ s.settled, p ∈ s.ops.map Prod.fst
  settledNodup : s.settled.Nodup
  envOps : ∀ e ∈ s.envelopes, (e.2, e.1) ∈ s.ops ∧ e.2 ∉ s.settled
  opsEnv : ∀ o ∈ s.ops, o.1 ∉ s.settled → (o.2, o.1) ∈ s.envelopes
  settledOnce : ∀ p ∈ s.settled, s.removals.count p = 1
  unsettledZero : ∀ p, p ∉ s.settled → s.removals.count p = 0

/-! ## `Dispatcher.handleResponse` (`part_001` lines 198–219)

`handleResponse(reply)` looks up the envelope for `reply.id`, and either
resolves its resolver (when the reply carries a `successful` field and an
envelope is present, and the resolver has not been cleared), or republishes
the reply as an unsolicited `message` notification; afterwards it performs
the connectivity transition of lines 216–218. -/

/-- A server reply as inspected by `handleResponse`: its id, and the
`successful` field (`none` embeds JavaScript `undefined`). -/
structure Reply where
  id : String
  successful : Option Bool
deriving Repr, DecidableEq

/-- An envelope as `handleResponse` sees it: whether `envelope.resolve` is
currently set (it is nulled by the response promise's `finally` at
`part_001` lines 144–146). -/
structure REnvelope where
  hasResolve : Bool
deriving Repr, DecidableEq

/-- What the correlation branch of `handleResponse` did with one reply. -/
inductive HandleAct where
  | resolved (r : Reply) : HandleAct
  | noop : HandleAct
  | message (r : Reply) : HandleAct
  | rejected : HandleAct
deriving Repr, DecidableEq

/-- Embedding of `part_001` lines 201–214: the correlated branch runs iff
`reply.successful !== undefined && envelope`; it calls `envelope.resolve`
only when the resolver is still set; every other reply is republished with
`this.trigger('message', reply)`.  `handleResponse` has no rejection path,
so `.rejected` is never produced. -/
def handleResponseAct (envelopes : List (String × REnvelope)) (reply : Reply) :
    HandleAct :=
  match alookup reply.id envelopes, reply.successful with
  | some envelope, some _ =>
    if envelope.hasResolve then .resolved reply else .noop
  | _, _ => .message reply

/-- The connectivity constant `UP` (`part_001` line 35); `this._state`
starts at `0` (line 26). -/
def UP : Nat := 1

/-- Embedding of `part_001` lines 216–218: if the state is already `UP`,
return; otherwise set it to `UP` and trigger `transport:up`.  Returns the
new state and whether the notification fired. -/
def connStep (state : Nat) : Nat × Bool :=
  if state = UP then (state, false) else (UP, true)

/-- One full `handleResponse` call: the correlation branch followed by the
connectivity transition. -/
def handleResponse (envelopes : List (String × REnvelope)) (state : Nat)
    (reply : Reply) : HandleAct × Nat × Bool :=
  (handleResponseAct envelopes reply, connStep state)

/-- A sequence of consecutive `handleResponse` calls (each with whatever
envelope map is current at that call), returning the final connectivity
state and the number of `transport:up` notifications fired. -/
def runHandleResponses (state : Nat) :
    List (List (String × REnvelope) × Reply) → Nat × Nat
  | [] => (state, 0)
  | (envs, reply) :: rest =>
    let step := handleResponse envs state reply
    let r := runHandleResponses step.2.1 rest
    (r.1, (if step.2.2 then 1 else 0) + r.2)

/-! ## The retry loop (`part_001` lines 124–196)

`_attemptSend` drives one delivery attempt and, through `_awaitRetry`,
the retries after failures.  We embed the loop as a generator of the timed
trace of its observable events.  The per-attempt network outcome (did the
joined acquire/send/response promise settle successfully, and how long did
it take) is an oracle input, one entry per attempt. -/

/-- Modelled from the spec: the per-message Scheduler (`scheduler.js` is
not among the sources; §4.1 of the spec describes it).  State: attempts
started (`send()` increments `sent`), failed attempts recorded (`fail()`
increments `failures`), the optional maximum number of attempts, the
absolute deadline, and the current retry interval with its cap. -/
structure Scheduler where
  sent : Nat
  failures : Nat
  attempts : Option Nat
  deadline : Nat
  interval : Nat
  maxInterval : Nat
deriving Repr, DecidableEq

/-- Modelled from the spec: `isDeliverable()` is true iff attempts
remaining > 0 and now < deadline. -/
def Scheduler.isDeliverable (sch : Scheduler) (now : Nat) : Bool :=
  (match sch.attempts with
   | none => true
   | some maxAttempts => sch.sent < maxAttempts) && now < sch.deadline

/-- Modelled from the spec: `send()` records an attempt starting. -/
def Scheduler.send (sch : Scheduler) : Scheduler :=
  { sch with sent := sch.sent + 1 }

/-- Modelled from the spec: `fail()` records a failed attempt; the retry
interval grows (exponential, capped) on successive failures. -/
def Scheduler.fail (sch : Scheduler) : Scheduler :=
  { sch with
    failures := sch.failures + 1,
    interval := min (sch.interval * 2) sch.maxInterval }

/-- Modelled from the spec: `getInterval()` is the delay before the next
attempt after a failure. -/
def Scheduler.getInterval (sch : Scheduler) : Nat :=
  sch.interval

/-- Modelled from the spec: Scheduler construction in `sendMessage`
(`part_001` lines 99–103) with a timeout budget, the base retry interval
from advice, and optional max attempts; the deadline is `now + timeout`. -/
def mkScheduler (now timeout interval : Nat) (attempts : Option Nat)
    (maxInterval : Nat) : Scheduler :=
  { sent := 0, failures := 0, attempts := attempts, deadline := now + timeout,
    interval := interval, maxInterval := maxInterval }

/-- Events of the retry loop, each stamped with the time it happens. -/
inductive REv where
  | attemptStart (attemptNo : Nat) (t : Nat) : REv
  | poolGet (t : Nat) : REv
  | failRecorded (failureNo : Nat) (interval : Nat) (t : Nat) : REv
  | delayStart (interval : Nat) (t : Nat) : REv
  | terminal (t : Nat) : REv
  | success (t : Nat) : REv
deriving Repr, DecidableEq

/-- The network's verdict on one attempt: whether the joined
acquire/send/response race succeeded, and how long it took to settle. -/
structure AttemptOutcome where
  ok : Bool
  dur : Nat
deriving Repr, DecidableEq

/-- Embedding of `Dispatcher._attemptSend` (`part_001` lines 124–182) and
`_awaitRetry` (lines 187–196) as a timed event trace.

The code: if the Scheduler is no longer deliverable, reject immediately
(lines 125–127); otherwise `scheduler.send()` (line 129), ask the pool for
a transport and send (lines 130–167) — one oracle entry decides that
attempt's outcome; on success the response resolves the operation; on any
failure the `catch` (lines 169–180) records `scheduler.fail()`, then if no
longer deliverable rethrows (terminal), else `_awaitRetry` waits
`scheduler.getInterval()` and recurses. -/
def attemptSend (sch : Scheduler) (now : Nat) : List AttemptOutcome → List REv
  | [] => if sch.isDeliverable now then [] else [.terminal now]
  | o :: rest =>
    if sch.isDeliverable now then
      let sch1 := sch.send
      let t1 := now + o.dur
      .attemptStart sch1.sent now :: .poolGet now ::
      (if o.ok then [.success t1]
       else
         let sch2 := sch1.fail
         .failRecorded sch2.failures sch2.getInterval t1 ::
         (if sch2.isDeliverable t1 then
            .delayStart sch2.getInterval t1 ::
              attemptSend sch2 (t1 + sch2.getInterval) rest
          else [.terminal t1]))
    else [.terminal now]

/-- The timestamp of a retry-loop event. -/
def REv.time : REv → Nat
  | .attemptStart _ t => t
  | .poolGet t => t
  | .failRecorded _ _ t => t
  | .delayStart _ t => t
  | .terminal t => t
  | .success t => t

/-! ### Association-list lemmas -/

theorem alookup_eq_none {β : Type} {id : String} {l : List (String × β)} :
    alookup id l = none ↔ id ∉ l.map Prod.fst := by
  induction l with
  | nil => simp [alookup]
  | cons e rest ih =>
    simp only [alookup, List.map_cons, List.mem_cons, not_or]
    by_cases h : e.1 = id
    · subst h
      simp
    · rw [if_neg h, ih]
      constructor
      · intro hn
        exact ⟨fun hq => h hq.symm, hn⟩
      · intro hn
        exact hn.2

theorem alookup_mem {β : Type} {id : String} {l : List (String × β)} {pid : β}
    (h : alookup id l = some pid) : (id, pid) ∈ l := by
  induction l with
  | nil => simp [alookup] at h
  | cons e rest ih =>
    simp only [alookup] at h
    by_cases he : e.1 = id
    · rw [if_pos he] at h
      cases Option.some.inj h
      subst he
      exact List.mem_cons_self _ _
    · rw [if_neg he] at h
      exact List.mem_cons_of_mem _ (ih h)

theorem mem_alookup {β : Type} {id : String} {pid : β} {l : List (String × β)}
    (nd : (l.map Prod.fst).Nodup) (h : (id, pid) ∈ l) : alookup id l = some pid := by
  induction l with
  | nil => simp at h
  | cons e rest ih =>
    simp only [List.map_cons, List.nodup_cons] at nd
    rcases List.mem_cons.mp h with he | hrest
    · simp [alookup, ← he]
    · have hne : e.1 ≠ id := by
        intro hq
        exact nd.1 (hq ▸ List.mem_map_of_mem Prod.fst hrest)
      simp only [alookup, if_neg hne]
      exact ih nd.2 hrest

theorem plookup_mem {pid : Nat} {l : List (Nat × String)} {id : String}
    (h : plookup pid l = some id) : (pid, id) ∈ l := by
  induction l with
  | nil => simp [plookup] at h
  | cons e rest ih =>
    simp only [plookup] at h
    by_cases he : e.1 = pid
    · rw [if_pos he] at h
      cases Option.some.inj h
      subst he
      exact List.mem_cons_self _ _
    · rw [if_neg he] at h
      exact List.mem_cons_of_mem _ (ih h)

theorem filter_key_eq {β : Type} {id : String} {pid : β} {l : List (String × β)}
    (nd : (l.map Prod.fst).Nodup) (h : (id, pid) ∈ l) :
    l.filter (fun e => e.1 == id) = [(id, pid)] := by
  induction l with
  | nil => simp at h
  | cons e rest ih =>
    simp only [List.map_cons, List.nodup_cons] at nd
    rcases List.mem_cons.mp h with he | hrest
    · subst he
      have hrest0 : rest.filter (fun e => e.1 == id) = [] := by
        refine List.filter_eq_nil_iff.mpr ?_
        intro a ha
        have hm : a.1 ∈ rest.map Prod.fst := List.mem_map_of_mem Prod.fst ha
        have hni : a.1 ≠ id := by
          intro hq
          rw [hq] at hm
          exact nd.1 hm
        simpa using hni
      simp [List.filter_cons, hrest0]
    · have hm : e.1 ∈ rest.map Prod.fst → False := by
        intro hq
        exact absurd hq nd.1
      have hne : e.1 ≠ id := by
        intro hq
        have : id ∈ rest.map Prod.fst := List.mem_map_of_mem Prod.fst hrest
        rw [← hq] at this
        exact hm this
      rw [List.filter_cons]
      simp only [hne, beq_iff_eq, if_neg, reduceIte]
      exact ih nd.2 hrest

/-! ### Preservation of the envelope-map invariant -/

theorem envInv_init : EnvInv DState.init := by
  constructor <;> simp [DState.init]

theorem envInv_send {s : DState} (inv : EnvInv s) (id : String) :
    EnvInv (sendMessage s id).1 := by
  cases hl : alookup id s.envelopes with
  | some pid =>
    have h : sendMessage s id = (s, pid) := by simp [sendMessage, hl]
    rw [h]
    exact inv
  | none =>
    have hs : (sendMessage s id).1 =
        { envelopes := (id, s.nextPid) :: s.envelopes,
          ops := (s.nextPid, id) :: s.ops,
          settled := s.settled,
          removals := s.removals,
          schedulers := s.schedulers + 1,
          nextPid := s.nextPid + 1 } := by
      simp [sendMessage, hl]
    rw [hs]
    have hid : id ∉ s.envelopes.map Prod.fst := alookup_eq_none.mp hl
    have hfreshOps : s.nextPid ∉ s.ops.map Prod.fst :=
      fun hm => lt_irrefl _ (inv.opsFresh _ hm)
    have hnSettled : s.nextPid ∉ s.settled :=
      fun hm => lt_irrefl _ (inv.opsFresh _ (inv.settledOps _ hm))
    have hfreshEnv : s.nextPid ∉ s.envelopes.map Prod.snd := by
      intro hm
      rcases List.mem_map.mp hm with ⟨e, he, hq⟩
      have := inv.opsFresh e.2 (List.mem_map_of_mem Prod.fst (inv.envOps e he).1)
      rw [hq] at this
      exact lt_irrefl _ this
    refine ⟨?_, ?_, ?_, ?_, ?_, ?_, ?_, ?_, ?_, ?_⟩
    · exact List.nodup_cons.mpr ⟨hid, inv.envKeysNodup⟩
    · exact List.nodup_cons.mpr ⟨hfreshEnv, inv.envPidsNodup⟩
    · exact List.nodup_cons.mpr ⟨hfreshOps, inv.opsKeysNodup⟩
    · intro p hp
      have hp' : p ∈ s.nextPid :: s.ops.map Prod.fst := hp
      rcases List.mem_cons.mp hp' with h | h
      · simp [h]
      · exact Nat.lt_succ_of_lt (inv.opsFresh p h)
    · intro p hp
      exact List.mem_cons_of_mem _ (inv.settledOps p hp)
    · exact inv.settledNodup
    · intro e he
      rcases List.mem_cons.mp he with h | h
      · subst h
        exact ⟨List.mem_cons_self _ _, hnSettled⟩
      · exact ⟨List.mem_cons_of_mem _ (inv.envOps e h).1, (inv.envOps e h).2⟩
    · intro o ho hos
      rcases List.mem_cons.mp ho with h | h
      · subst h
        exact List.mem_cons_self _ _
      · exact List.mem_cons_of_mem _ (inv.opsEnv o h hos)
    · exact inv.settledOnce
    · exact inv.unsettledZero

theorem envInv_settle {s : DState} (inv : EnvInv s) (pid : Nat) :
    EnvInv (settleOp s pid) := by
  cases hp : plookup pid s.ops with
  | none => simpa [settleOp, hp] using inv
  | some id =>
    by_cases hps : pid ∈ s.settled
    · simpa [settleOp, hp, hps] using inv
    · have hops : (pid, id) ∈ s.ops := plookup_mem hp
      have henv : (id, pid) ∈ s.envelopes := inv.opsEnv _ hops hps
      have hfil : s.envelopes.filter (fun e => e.1 == id) = [(id, pid)] :=
        filter_key_eq inv.envKeysNodup henv
      have hs : settleOp s pid =
          { s with
            settled := pid :: s.settled,
            envelopes := s.envelopes.filter (fun e => e.1 != id),
            removals := pid :: s.removals } := by
        simp [settleOp, hp, hps, hfil]
      rw [hs]
      refine ⟨?_, ?_, ?_, ?_, ?_, ?_, ?_, ?_, ?_, ?_⟩
      · exact inv.envKeysNodup.sublist ((List.filter_sublist _).map Prod.fst)
      · exact inv.envPidsNodup.sublist ((List.filter_sublist _).map Prod.snd)
      · exact inv.opsKeysNodup
      · exact inv.opsFresh
      · intro p hpm
        rcases List.mem_cons.mp hpm with h | h
        · subst h
          exact List.mem_map_of_mem Prod.fst hops
        · exact inv.settledOps p h
      · exact List.nodup_cons.mpr ⟨hps, inv.settledNodup⟩
      · intro e he
        have he' : e ∈ s.envelopes.filter (fun e => e.1 != id) := he
        have hmem : e ∈ s.envelopes := (List.mem_filter.mp he').1
        have hcond : (e.1 != id) = true := (List.mem_filter.mp he').2
        refine ⟨(inv.envOps e hmem).1, ?_⟩
        intro hin
        rcases List.mem_cons.mp hin with h | h
        · have : e = (id, pid) :=
            List.inj_on_of_nodup_map inv.envPidsNodup hmem henv (by simpa using h)
          rw [this] at hcond
          simp at hcond
        · exact (inv.envOps e hmem).2 h
      · intro o ho hos
        have hnpid : o.1 ≠ pid := fun hq => hos (hq ▸ List.mem_cons_self _ _)
        have hnos : o.1 ∉ s.settled := fun hq => hos (List.mem_cons_of_mem _ hq)
        have hoenv : (o.2, o.1) ∈ s.envelopes := inv.opsEnv o ho hnos
        refine List.mem_filter.mpr ⟨hoenv, ?_⟩
        have hne : o.2 ≠ id := by
          intro hq
          have heq : (o.2, o.1) = (id, pid) :=
            List.inj_on_of_nodup_map inv.envKeysNodup hoenv henv (by simpa using hq)
          exact hnpid (congrArg Prod.snd heq)
        simpa using hne
      · intro p hpm
        rcases List.mem_cons.mp hpm with h | h
        · subst h
          have h0 : s.removals.count p = 0 := inv.unsettledZero p hps
          simp [List.count_cons, h0]
        · have hne : p ≠ pid := fun hq => hps (hq ▸ h)
          have hne' : ¬pid = p := fun hq => hne hq.symm
          have h1 : s.removals.count p = 1 := inv.settledOnce p h
          simp [List.count_cons, h1, hne']
      · intro p hpm
        have hne : p ≠ pid := fun hq => hpm (hq ▸ List.mem_cons_self _ _)
        have hne' : ¬pid = p := fun hq => hne hq.symm
        have hno : p ∉ s.settled := fun hq => hpm (List.mem_cons_of_mem _ hq)
        have h0 : s.removals.count p = 0 := inv.unsettledZero p hno
        simp [List.count_cons, h0, hne']

theorem envInv_close {s : DState} (inv : EnvInv s) : EnvInv (cancelPending s) := by
  have hdisj : ∀ p ∈ s.envelopes.map Prod.snd, p ∉ s.settled := by
    intro p hp
    rcases List.mem_map.mp hp with ⟨e, he, hq⟩
    exact hq ▸ (inv.envOps e he).2
  refine ⟨?_, ?_, ?_, ?_, ?_, ?_, ?_, ?_, ?_, ?_⟩
  · simp [cancelPending]
  · simp [cancelPending]
  · exact inv.opsKeysNodup
  · exact inv.opsFresh
  · intro p hpm
    rcases List.mem_append.mp hpm with h | h
    · rcases List.mem_map.mp h with ⟨e, he, hq⟩
      exact hq ▸ List.mem_map_of_mem Prod.fst (inv.envOps e he).1
    · exact inv.settledOps p h
  · show (s.envelopes.map Prod.snd ++ s.settled).Nodup
    rw [List.nodup_append]
    exact ⟨inv.envPidsNodup, inv.settledNodup, by simpa [List.Disjoint] using hdisj⟩
  · intro e he
    simp [cancelPending] at he
  · intro o ho hos
    exfalso
    have hos' : o.1 ∉ s.envelopes.map Prod.snd ++ s.settled := hos
    have hno : o.1 ∉ s.settled := fun hq => hos' (List.mem_append_right _ hq)
    have : (o.2, o.1) ∈ s.envelopes := inv.opsEnv o ho hno
    exact hos' (List.mem_append_left _ (List.mem_map_of_mem Prod.snd this))
  · intro p hpm
    have hpm' : p ∈ s.envelopes.map Prod.snd ++ s.settled := hpm
    show (s.envelopes.map Prod.snd ++ s.removals).count p = 1
    rw [List.count_append]
    rcases List.mem_append.mp hpm' with h | h
    · have h1 : (s.envelopes.map Prod.snd).count p = 1 :=
        List.count_eq_one_of_mem inv.envPidsNodup h
      have h0 : s.removals.count p = 0 := inv.unsettledZero p (hdisj p h)
      omega
    · have h0 : (s.envelopes.map Prod.snd).count p = 0 :=
        List.count_eq_zero.mpr (fun hq => hdisj p hq h)
      have h1 : s.removals.count p = 1 := inv.settledOnce p h
      omega
  · intro p hpm
    have hpm' : p ∉ s.envelopes.map Prod.snd ++ s.settled := hpm
    show (s.envelopes.map Prod.snd ++ s.removals).count p = 0
    rw [List.count_append]
    have h1 : p ∉ s.envelopes.map Prod.snd := fun hq => hpm' (List.mem_append_left _ hq)
    have h2 : p ∉ s.settled := fun hq => hpm' (List.mem_append_right _ hq)
    have e1 : (s.envelopes.map Prod.snd).count p = 0 := List.count_eq_zero.mpr h1
    have e2 : s.removals.count p = 0 := inv.unsettledZero p h2
    omega

theorem envInv_dstep {s : DState} (inv : EnvInv s) (op : DOp) : EnvInv (dstep s op) := by
  cases op with
  | send id => exact envInv_send inv id
  | settle pid => exact envInv_settle inv pid
  | close => exact envInv_close inv

theorem envInv_drun (ops : List DOp) : EnvInv (drun ops) := by
  have h : ∀ s, EnvInv s → EnvInv (ops.foldl dstep s) := by
    induction ops with
    | nil => exact fun s hs => hs
    | cons op rest ih => exact fun s hs => ih _ (envInv_dstep hs op)
  exact h _ envInv_init

theorem runHandleResponses_up (inputs : List (List (String × REnvelope) × Reply)) :
    runHandleResponses UP inputs = (UP, 0) := by
  induction inputs with
  | nil => rfl
  | cons x rest ih =>
    obtain ⟨envs, reply⟩ := x
    simp [runHandleResponses, handleResponse, connStep, ih]

theorem attemptSend_time_ge (oracle : List AttemptOutcome) :
    ∀ (sch : Scheduler) (now : Nat), ∀ ev ∈ attemptSend sch now oracle,
      now ≤ ev.time := by
  induction oracle with
  | nil =>
    intro sch now ev hev
    by_cases h : sch.isDeliverable now
    · simp [attemptSend, h] at hev
    · simp [attemptSend, h] at hev
      subst hev
      simp [REv.time]
  | cons o rest ih =>
    intro sch now ev hev
    by_cases h : sch.isDeliverable now
    · rw [attemptSend, if_pos h] at hev
      rcases List.mem_cons.mp hev with rfl | hev
      · simp [REv.time]
      rcases List.mem_cons.mp hev with rfl | hev
      · simp [REv.time]
      by_cases hok : o.ok
      · simp [hok] at hev
        subst hev
        simp [REv.time]
      · simp only [hok, Bool.false_eq_true, if_false] at hev
        rcases List.mem_cons.mp hev with rfl | hev
        · simp [REv.time]
        by_cases hd : (sch.send.fail).isDeliverable (now + o.dur)
        · rw [if_pos hd] at hev
          rcases List.mem_cons.mp hev with rfl | hev
          · simp [REv.time]
          · have := ih _ _ ev hev
            simp [REv.time] at this ⊢
            omega
        · rw [if_neg hd] at hev
          simp at hev
          subst hev
          simp [REv.time]
    · rw [attemptSend, if_neg h] at hev
      simp at hev
      subst hev
      simp [REv.time]

theorem attemptSend_failno_gt (oracle : List AttemptOutcome) :
    ∀ (sch : Scheduler) (now : Nat), ∀ n d t,
      REv.failRecorded n d t ∈ attemptSend sch now oracle →
      sch.failures < n := by
  induction oracle with
  | nil =>
    intro sch now n d t hev
    by_cases h : sch.isDeliverable now <;> simp [attemptSend, h] at hev
  | cons o rest ih =>
    intro sch now n d t hev
    by_cases h : sch.isDeliverable now
    · rw [attemptSend, if_pos h] at hev
      rcases List.mem_cons.mp hev with hc | hev
      · exact absurd hc (by simp)
      rcases List.mem_cons.mp hev with hc | hev
      · exact absurd hc (by simp)
      by_cases hok : o.ok
      · simp [hok] at hev
      · simp only [hok, Bool.false_eq_true, if_false] at hev
        rcases List.mem_cons.mp hev with hc | hev
        · have : n = (sch.send.fail).failures := by
            cases hc
            rfl
          simp [Scheduler.send, Scheduler.fail] at this
          omega
        by_cases hd : (sch.send.fail).isDeliverable (now + o.dur)
        · rw [if_pos hd] at hev
          rcases List.mem_cons.mp hev with hc | hev
          · exact absurd hc (by simp)
          · have := ih _ _ n d t hev
            simp [Scheduler.send, Scheduler.fail] at this
            omega
        · rw [if_neg hd] at hev
          simp at hev
    · rw [attemptSend, if_neg h] at hev
      simp at hev

theorem attemptSend_delay_has_fail (oracle : List AttemptOutcome) :
    ∀ (sch : Scheduler) (now : Nat), ∀ d t,
      REv.delayStart d t ∈ attemptSend sch now oracle →
      ∃ n pre suf, attemptSend sch now oracle =
        pre ++ REv.failRecorded n d t :: REv.delayStart d t :: suf := by
  induction oracle with
  | nil =>
    intro sch now d t hev
    by_cases h : sch.isDeliverable now <;> simp [attemptSend, h] at hev
  | cons o rest ih =>
    intro sch now d t hev
    by_cases h : sch.isDeliverable now
    · rw [attemptSend, if_pos h] at hev ⊢
      rcases List.mem_cons.mp hev with hc | hev
      · exact absurd hc (by simp)
      rcases List.mem_cons.mp hev with hc | hev
      · exact absurd hc (by simp)
      by_cases hok : o.ok
      · simp [hok] at hev
      · simp only [hok, Bool.false_eq_true, if_false] at hev ⊢
        rcases List.mem_cons.mp hev with hc | hev
        · exact absurd hc (by simp)
        by_cases hd : (sch.send.fail).isDeliverable (now + o.dur)
        · rw [if_pos hd] at hev ⊢
          rcases List.mem_cons.mp hev with hc | hev
          · cases hc
            exact ⟨(sch.send.fail).failures,
                   [REv.attemptStart sch.send.sent now, REv.poolGet now], _, rfl⟩
          · obtain ⟨n, pre, suf, hpre⟩ := ih _ _ d t hev
            rw [hpre]
            refine ⟨n, REv.attemptStart sch.send.sent now :: REv.poolGet now ::
              REv.failRecorded (sch.send.fail).failures (sch.send.fail).getInterval
                (now + o.dur) ::
              REv.delayStart (sch.send.fail).getInterval (now + o.dur) :: pre,
              suf, by simp⟩
        · rw [if_neg hd] at hev
          simp at hev
    · rw [attemptSend, if_neg h] at hev
      simp at hev

theorem attemptSend_spacing (oracle : List AttemptOutcome) :
    ∀ (sch : Scheduler) (now : Nat), sch.sent = sch.failures →
    ∀ n d t m t', REv.failRecorded n d t ∈ attemptSend sch now oracle →
      REv.attemptStart m t' ∈ attemptSend sch now oracle →
      n < m → t + d ≤ t' := by
  induction oracle with
  | nil =>
    intro sch now hsf n d t m t' hf ha hnm
    by_cases h : sch.isDeliverable now <;> simp [attemptSend, h] at hf
  | cons o rest ih =>
    intro sch now hsf n d t m t' hf ha hnm
    by_cases h : sch.isDeliverable now
    · rw [attemptSend, if_pos h] at hf ha
      rcases List.mem_cons.mp hf with hc | hf
      · exact absurd hc (by simp)
      rcases List.mem_cons.mp hf with hc | hf
      · exact absurd hc (by simp)
      by_cases hok : o.ok
      · simp [hok] at hf
      · simp only [hok, Bool.false_eq_true, if_false] at hf ha
        rcases List.mem_cons.mp ha with hca | ha
        · exfalso
          injection hca with hm _
          have hm' : m = sch.sent + 1 := by
            rw [hm]
            rfl
          rcases List.mem_cons.mp hf with hcf | hf
          · injection hcf with hn _ _
            have : n = sch.failures + 1 := by
              rw [hn]
              simp [Scheduler.send, Scheduler.fail]
            omega
          · by_cases hd : (sch.send.fail).isDeliverable (now + o.dur)
            · rw [if_pos hd] at hf
              rcases List.mem_cons.mp hf with hcf | hf
              · exact absurd hcf (by simp)
              · have := attemptSend_failno_gt rest _ _ n d t hf
                simp [Scheduler.send, Scheduler.fail] at this
                omega
            · rw [if_neg hd] at hf
              simp at hf
        rcases List.mem_cons.mp ha with hca | ha
        · exact absurd hca (by simp)
        rcases List.mem_cons.mp ha with hca | ha
        · exact absurd hca (by simp)
        by_cases hd : (sch.send.fail).isDeliverable (now + o.dur)
        · rw [if_pos hd] at hf ha
          rcases List.mem_cons.mp ha with hca | ha
          · exact absurd hca (by simp)
          rcases List.mem_cons.mp hf with hcf | hf
          · injection hcf with hn hdi hti
            have := attemptSend_time_ge rest _ _ _ ha
            simp [REv.time] at this
            rw [hdi, hti]
            omega
          · rcases List.mem_cons.mp hf with hcf | hf
            · exact absurd hcf (by simp)
            · refine ih _ _ ?_ n d t m t' hf ha hnm
              simp [Scheduler.send, Scheduler.fail, hsf]
        · rw [if_neg hd] at ha
          rcases List.mem_cons.mp ha with hca | ha
          · exact absurd hca (by simp)
          · simp at ha
    · rw [attemptSend, if_neg h] at hf
      simp at hf

theorem attemptSend_terminal_last (oracle : List AttemptOutcome) :
    ∀ (sch : Scheduler) (now : Nat), ∀ t,
      REv.terminal t ∈ attemptSend sch now oracle →
      ∃ pre, attemptSend sch now oracle = pre ++ [REv.terminal t] ∧
        ∀ u, REv.terminal u ∉ pre := by
  induction oracle with
  | nil =>
    intro sch now t hev
    by_cases h : sch.isDeliverable now
    · simp [attemptSend, h] at hev
    · simp [attemptSend, h] at hev
      subst hev
      exact ⟨[], by simp [attemptSend, h]⟩
  | cons o rest ih =>
    intro sch now t hev
    by_cases h : sch.isDeliverable now
    · rw [attemptSend, if_pos h] at hev ⊢
      rcases List.mem_cons.mp hev with hc | hev
      · exact absurd hc (by simp)
      rcases List.mem_cons.mp hev with hc | hev
      · exact absurd hc (by simp)
      by_cases hok : o.ok
      · simp [hok] at hev
      · simp only [hok, Bool.false_eq_true, if_false] at hev ⊢
        rcases List.mem_cons.mp hev with hc | hev
        · exact absurd hc (by simp)
        by_cases hd : (sch.send.fail).isDeliverable (now + o.dur)
        · rw [if_pos hd] at hev ⊢
          rcases List.mem_cons.mp hev with hc | hev
          · exact absurd hc (by simp)
          · obtain ⟨pre, hpre, hnone⟩ := ih _ _ t hev
            rw [hpre]
            refine ⟨REv.attemptStart sch.send.sent now :: REv.poolGet now ::
              REv.failRecorded (sch.send.fail).failures (sch.send.fail).getInterval
                (now + o.dur) ::
              REv.delayStart (sch.send.fail).getInterval (now + o.dur) :: pre,
              by simp, ?_⟩
            intro u hu
            rcases List.mem_cons.mp hu with hc | hu
            · exact absurd hc (by simp)
            rcases List.mem_cons.mp hu with hc | hu
            · exact absurd hc (by simp)
            rcases List.mem_cons.mp hu with hc | hu
            · exact absurd hc (by simp)
            rcases List.mem_cons.mp hu with hc | hu
            · exact absurd hc (by simp)
            · exact hnone u hu
        · rw [if_neg hd] at hev ⊢
          simp only [List.mem_singleton] at hev
          cases hev
          refine ⟨[REv.attemptStart sch.send.sent now, REv.poolGet now,
            REv.failRecorded (sch.send.fail).failures (sch.send.fail).getInterval
              (now + o.dur)], by simp, ?_⟩
          intro u hu
          rcases List.mem_cons.mp hu with hc | hu
          · exact absurd hc (by simp)
          rcases List.mem_cons.mp hu with hc | hu
          · exact absurd hc (by simp)
          rcases List.mem_cons.mp hu with hc | hu
          · exact absurd hc (by simp)
          · simp at hu
    · rw [attemptSend, if_neg h] at hev ⊢
      simp only [List.mem_singleton] at hev
      cases hev
      exact ⟨[], by simp⟩

/-! ## The claims -/

/-- C1: `Dispatcher.sendMessage` is idempotent on the message id: when an
envelope for the id is already in flight, the repeat call returns the very
same pending promise and changes nothing — no new Scheduler and no new
Envelope is created (`part_001` lines 88–95). -/
theorem C1_sendMessage_idempotent (s : DState) (id : String) (pid : Nat)
    (h : alookup id s.envelopes = some pid) :
    sendMessage s id = (s, pid) := by
  simp [sendMessage, h]

/-- Witness for C1 at a concrete in-flight state. -/
theorem C1_sendMessage_idempotent_witness :
    alookup "1" (DState.mk [("1", 5)] [(5, "1")] [] [] 1 6).envelopes = some 5 ∧
    sendMessage (DState.mk [("1", 5)] [(5, "1")] [] [] 1 6) "1" =
      (DState.mk [("1", 5)] [(5, "1")] [] [] 1 6, 5) :=
  ⟨by simp [alookup],
   C1_sendMessage_idempotent _ "1" 5 (by simp [alookup])⟩

/-- C2: the envelope-map invariant.  After any sequence of operations: the
map holds at most one envelope per id; no envelope of the map belongs to a
settled operation (the map never holds a settled entry); and every settled
operation's envelope has been removed exactly once, whichever path settled
it (success, error, cancellation, or close). -/
theorem C2_envelope_map_invariant (ops : List DOp) :
    ((drun ops).envelopes.map Prod.fst).Nodup ∧
    (∀ e ∈ (drun ops).envelopes, e.2 ∉ (drun ops).settled) ∧
    (∀ p ∈ (drun ops).settled, (drun ops).removals.count p = 1) :=
  ⟨(envInv_drun ops).envKeysNodup,
   fun e he => ((envInv_drun ops).envOps e he).2,
   (envInv_drun ops).settledOnce⟩

/-- Witness for C2: a run that opens and settles an operation. -/
theorem C2_envelope_map_invariant_witness :
    0 ∈ (drun [DOp.send "1", DOp.settle 0]).settled ∧
    (drun [DOp.send "1", DOp.settle 0]).removals.count 0 = 1 :=
  ⟨by decide,
   (C2_envelope_map_invariant [DOp.send "1", DOp.settle 0]).2.2 0 (by decide)⟩

/-- C3: `handleResponse` resolves the waiting envelope's resolver iff the
reply carries a `successful` field and an open envelope exists for its id
(and the resolver is still set — a cleared resolver makes it a no-op);
every other reply is republished as an unsolicited `message` notification;
and no reply is ever rejected (`part_001` lines 198–214). -/
theorem C3_handleResponse_resolve_iff (envelopes : List (String × REnvelope))
    (reply : Reply) :
    (handleResponseAct envelopes reply = HandleAct.resolved reply ↔
      (reply.successful.isSome = true ∧
        ∃ env, alookup reply.id envelopes = some env ∧ env.hasResolve = true)) ∧
    (¬(reply.successful.isSome = true ∧
        (alookup reply.id envelopes).isSome = true) →
      handleResponseAct envelopes reply = HandleAct.message reply) ∧
    (∀ env, reply.successful.isSome = true →
      alookup reply.id envelopes = some env → env.hasResolve = false →
      handleResponseAct envelopes reply = HandleAct.noop) ∧
    handleResponseAct envelopes reply ≠ HandleAct.rejected := by
  unfold handleResponseAct
  cases he : alookup reply.id envelopes with
  | none => cases hs : reply.successful <;> simp
  | some env =>
    cases hs : reply.successful with
    | none => simp
    | some b =>
      by_cases hr : env.hasResolve = true <;> simp [hr]

/-- Witness for C3: a correlated successful reply resolves; an unknown id
republishes as a `message`. -/
theorem C3_handleResponse_resolve_iff_witness :
    handleResponseAct [("1", REnvelope.mk true)] (Reply.mk "1" (some true)) =
      HandleAct.resolved (Reply.mk "1" (some true)) ∧
    handleResponseAct [] (Reply.mk "2" none) =
      HandleAct.message (Reply.mk "2" none) :=
  ⟨(C3_handleResponse_resolve_iff [("1", REnvelope.mk true)]
      (Reply.mk "1" (some true))).1.mpr
      ⟨rfl, REnvelope.mk true, by simp [alookup], rfl⟩,
   (C3_handleResponse_resolve_iff [] (Reply.mk "2" none)).2.1 (by simp [alookup])⟩

/-- C4: the retry loop of `_attemptSend`/`_awaitRetry`, over a per-message
Scheduler as constructed by `sendMessage`.  (i) `scheduler.fail()` is
recorded before any retry decision: every retry delay in the trace is
immediately preceded by the recorded failure, with the delay equal to
`getInterval()` at that failure; (ii) every later attempt starts no earlier
than that interval after the failure; (iii) once not deliverable the
failure is terminal — the terminal event ends the trace. -/
theorem C4_retry_loop (now timeout interval : Nat) (attempts : Option Nat)
    (maxInterval : Nat) (oracle : List AttemptOutcome) :
    (∀ d t, REv.delayStart d t ∈
        attemptSend (mkScheduler now timeout interval attempts maxInterval) now oracle →
      ∃ n pre suf,
        attemptSend (mkScheduler now timeout interval attempts maxInterval) now oracle =
          pre ++ REv.failRecorded n d t :: REv.delayStart d t :: suf) ∧
    (∀ n d t m t',
      REv.failRecorded n d t ∈
        attemptSend (mkScheduler now timeout interval attempts maxInterval) now oracle →
      REv.attemptStart m t' ∈
        attemptSend (mkScheduler now timeout interval attempts maxInterval) now oracle →
      n < m → t + d ≤ t') ∧
    (∀ t, REv.terminal t ∈
        attemptSend (mkScheduler now timeout interval attempts maxInterval) now oracle →
      ∃ pre,
        attemptSend (mkScheduler now timeout interval attempts maxInterval) now oracle =
          pre ++ [REv.terminal t] ∧ ∀ u, REv.terminal u ∉ pre) :=
  ⟨fun d t h => attemptSend_delay_has_fail oracle _ now d t h,
   fun n d t m t' hf ha hnm => attemptSend_spacing oracle _ now rfl n d t m t' hf ha hnm,
   fun t h => attemptSend_terminal_last oracle _ now t h⟩

/-- Witness for C4: two attempts, the first failing after 3 ms; the second
attempt starts exactly `getInterval()` after the recorded failure. -/
theorem C4_retry_loop_witness :
    REv.failRecorded 1 14 3 ∈
      attemptSend (mkScheduler 0 100 7 none 56) 0
        [AttemptOutcome.mk false 3, AttemptOutcome.mk true 2] ∧
    REv.attemptStart 2 17 ∈
      attemptSend (mkScheduler 0 100 7 none 56) 0
        [AttemptOutcome.mk false 3, AttemptOutcome.mk true 2] ∧
    (1 : Nat) < 2 ∧ 3 + 14 ≤ 17 :=
  ⟨by decide, by decide, by decide,
   (C4_retry_loop 0 100 7 none 56
      [AttemptOutcome.mk false 3, AttemptOutcome.mk true 2]).2.1
    1 14 3 2 17 (by decide) (by decide) (by decide)⟩

/-- C5: when the Scheduler reports not deliverable at the start of an
attempt (for example `attempts = 0` or `timeout = 0`), `_attemptSend`
rejects immediately with the terminal error (`part_001` lines 125–127),
so the `sendMessage` future rejects — and zero network operations occur:
the pool is never asked for a transport and no attempt starts. -/
theorem C5_not_deliverable_no_network (sch : Scheduler) (now : Nat)
    (oracle : List AttemptOutcome) (h : sch.isDeliverable now = false) :
    attemptSend sch now oracle = [REv.terminal now] ∧
    (∀ t, REv.poolGet t ∉ attemptSend sch now oracle) ∧
    (∀ m t, REv.attemptStart m t ∉ attemptSend sch now oracle) := by
  have htr : attemptSend sch now oracle = [REv.terminal now] := by
    cases oracle <;> simp [attemptSend, h]
  refine ⟨htr, ?_, ?_⟩ <;> simp [htr]

/-- Witness for C5: a Scheduler constructed with `attempts = 0` is not
deliverable and triggers the fail-fast path. -/
theorem C5_not_deliverable_no_network_witness :
    (mkScheduler 0 1000 5 (some 0) 40).isDeliverable 0 = false ∧
    (attemptSend (mkScheduler 0 1000 5 (some 0) 40) 0 [AttemptOutcome.mk false 10] =
        [REv.terminal 0] ∧
      (∀ t, REv.poolGet t ∉
        attemptSend (mkScheduler 0 1000 5 (some 0) 40) 0 [AttemptOutcome.mk false 10]) ∧
      (∀ m t, REv.attemptStart m t ∉
        attemptSend (mkScheduler 0 1000 5 (some 0) 40) 0 [AttemptOutcome.mk false 10])) :=
  ⟨by decide,
   C5_not_deliverable_no_network (mkScheduler 0 1000 5 (some 0) 40) 0
     [AttemptOutcome.mk false 10] (by decide)⟩

/-- C6: connectivity transitions to UP at most once per UP period: from a
non-UP state, any nonempty run of consecutive `handleResponse` calls fires
`transport:up` exactly once, and a run starting in the UP state fires no
notification (`part_001` lines 216–218). -/
theorem C6_transport_up_once (state : Nat)
    (inputs : List (List (String × REnvelope) × Reply))
    (hne : state ≠ UP) (hn : inputs ≠ []) :
    (runHandleResponses state inputs).2 = 1 ∧
    (runHandleResponses UP inputs).2 = 0 := by
  constructor
  · cases inputs with
    | nil => exact absurd rfl hn
    | cons x rest =>
      obtain ⟨envs, reply⟩ := x
      simp [runHandleResponses, handleResponse, connStep, hne, runHandleResponses_up]
  · rw [runHandleResponses_up]

/-- Witness for C6: one call from the initial state `0`. -/
theorem C6_transport_up_once_witness :
    (0 : Nat) ≠ UP ∧
    ([(([] : List (String × REnvelope)), Reply.mk "1" none)] ≠ []) ∧
    ((runHandleResponses 0 [([], Reply.mk "1" none)]).2 = 1 ∧
     (runHandleResponses UP [([], Reply.mk "1" none)]).2 = 0) :=
  ⟨by decide, by simp,
   C6_transport_up_once 0 [([], Reply.mk "1" none)] (by decide) (by simp)⟩

/-- C7: an HTTP response with status outside [200, 300) makes the reference
HTTP transport reject the request's future with a `TransportError` and
signal down with that transport instance; `Dispatcher.transportDown`
forwards the instance to `Pool.down` (`part_000` lines 32–41, `part_001`
lines 226–228). -/
theorem C7_http_bad_status (self status : Nat) (parsed : Option Json)
    (h : status < 200 ∨ 300 ≤ status) :
    requestOnResponse self status parsed =
      [TEv.reject (TErr.transportError ("HTTP Status " ++ toString status)),
       TEv.down self] ∧
    transportDown self = PoolAct.down self := by
  have hb : (200 ≤ status && status < 300) = false := by
    simp only [Bool.and_eq_false_iff, decide_eq_false_iff_not, Nat.not_le, Nat.not_lt]
    omega
  exact ⟨by simp [requestOnResponse, hb], rfl⟩

/-- Witness for C7 at status 503. -/
theorem C7_http_bad_status_witness :
    ((503 : Nat) < 200 ∨ (300 : Nat) ≤ 503) ∧
    (requestOnResponse 0 503 none =
      [TEv.reject (TErr.transportError ("HTTP Status " ++ toString (503 : Nat))),
       TEv.down 0] ∧
     transportDown 0 = PoolAct.down 0) :=
  ⟨by decide, C7_http_bad_status 0 503 none (by decide)⟩

/-- C8: on a 2xx response, a body that fails to parse or parses to a falsy
value is a transport failure: the transport signals down, raises no fault
(nothing is rejected — the future already resolved) and forwards nothing;
a successfully parsed truthy result is forwarded to `_receive`
(`part_000` lines 43–63). -/
theorem C8_http_2xx_parse (self status : Nat) (parsed : Option Json)
    (h2xx : 200 ≤ status ∧ status < 300) :
    ((parsed = none ∨ (∃ v, parsed = some v ∧ v.truthy = false)) →
      (TEv.down self ∈ requestOnResponse self status parsed ∧
       (∀ e, TEv.reject e ∉ requestOnResponse self status parsed) ∧
       (∀ v, TEv.receive v ∉ requestOnResponse self status parsed))) ∧
    (∀ v, parsed = some v → v.truthy = true →
      (TEv.receive v ∈ requestOnResponse self status parsed ∧
       TEv.down self ∉ requestOnResponse self status parsed)) := by
  have hb : (200 ≤ status && status < 300) = true := by
    simp only [Bool.and_eq_true, decide_eq_true_eq]
    exact h2xx
  constructor
  · rintro (rfl | ⟨v, rfl, hv⟩)
    · refine ⟨by simp [requestOnResponse, hb], ?_, ?_⟩ <;>
        intro x <;> simp [requestOnResponse, hb]
    · refine ⟨by simp [requestOnResponse, hb, hv], ?_, ?_⟩ <;>
        intro x <;> simp [requestOnResponse, hb, hv]
  · rintro v rfl hv
    exact ⟨by simp [requestOnResponse, hb, hv], by simp [requestOnResponse, hb, hv]⟩

/-- Witness for C8: status 200 with an unparseable body signals down; a
truthy parsed array is forwarded. -/
theorem C8_http_2xx_parse_witness :
    ((200 : Nat) ≤ 200 ∧ (200 : Nat) < 300) ∧
    (TEv.down 0 ∈ requestOnResponse 0 200 none ∧
     (∀ e, TEv.reject e ∉ requestOnResponse 0 200 none) ∧
     (∀ v, TEv.receive v ∉ requestOnResponse 0 200 none)) ∧
    (TEv.receive (Json.arr []) ∈ requestOnResponse 0 200 (some (Json.arr [])) ∧
     TEv.down 0 ∉ requestOnResponse 0 200 (some (Json.arr []))) :=
  ⟨by decide,
   (C8_http_2xx_parse 0 200 none (by decide)).1 (Or.inl rfl),
   (C8_http_2xx_parse 0 200 (some (Json.arr [])) (by decide)).2 (Json.arr []) rfl rfl⟩

/-- C9: a raw socket-level error rejects the request's future with a
`TransportError` but does not signal the transport down (`part_000`
lines 67–69 call `reject` only; no `transportDown`). -/
theorem C9_socket_error_no_down (msg : String) :
    requestOnError msg = [TEv.reject (TErr.transportError msg)] ∧
    (∀ t, TEv.down t ∉ requestOnError msg) := by
  refine ⟨rfl, ?_⟩
  intro t ht
  simp [requestOnError] at ht

/-- Witness for C9 at a concrete error message. -/
theorem C9_socket_error_no_down_witness :
    requestOnError "ECONNRESET" = [TEv.reject (TErr.transportError "ECONNRESET")] ∧
    TEv.down 0 ∉ requestOnError "ECONNRESET" :=
  ⟨(C9_socket_error_no_down "ECONNRESET").1,
   (C9_socket_error_no_down "ECONNRESET").2 0⟩

/-- C10: on a 2xx status the future resolves first, before the body is
read, and nothing in the 2xx trace can reject it (a decode failure can only
signal down); on a non-2xx status the body is never read and no replies are
forwarded to `_receive` (`part_000` lines 32–63). -/
theorem C10_resolve_before_body (self status : Nat) (parsed : Option Json) :
    ((200 ≤ status ∧ status < 300) →
      ((∃ tail, requestOnResponse self status parsed =
          TEv.resolve :: TEv.bodyRead :: tail) ∧
       (∀ e, TEv.reject e ∉ requestOnResponse self status parsed))) ∧
    (¬(200 ≤ status ∧ status < 300) →
      (TEv.bodyRead ∉ requestOnResponse self status parsed ∧
       (∀ v, TEv.receive v ∉ requestOnResponse self status parsed))) := by
  constructor
  · intro h2xx
    have hb : (200 ≤ status && status < 300) = true := by
      simp only [Bool.and_eq_true, decide_eq_true_eq]
      exact h2xx
    constructor
    · cases parsed with
      | none => exact ⟨[TEv.down self], by simp [requestOnResponse, hb]⟩
      | some v =>
        by_cases hv : v.truthy = true
        · exact ⟨[TEv.receive v], by simp [requestOnResponse, hb, hv]⟩
        · exact ⟨[TEv.down self], by simp [requestOnResponse, hb, hv]⟩
    · intro e
      cases parsed with
      | none => simp [requestOnResponse, hb]
      | some v =>
        by_cases hv : v.truthy = true <;> simp [requestOnResponse, hb, hv]
  · intro hno
    have hb : (200 ≤ status && status < 300) = false := by
      simp only [Bool.and_eq_false_iff, decide_eq_false_iff_not, Nat.not_le, Nat.not_lt]
      omega
    exact ⟨by simp [requestOnResponse, hb], fun v => by simp [requestOnResponse, hb]⟩

/-- Witness for C10 at statuses 204 and 503. -/
theorem C10_resolve_before_body_witness :
    ((200 : Nat) ≤ 204 ∧ (204 : Nat) < 300) ∧
    ((∃ tail, requestOnResponse 0 204 none =
        TEv.resolve :: TEv.bodyRead :: tail) ∧
     (∀ e, TEv.reject e ∉ requestOnResponse 0 204 none)) ∧
    ¬((200 : Nat) ≤ 503 ∧ (503 : Nat) < 300) ∧
    (TEv.bodyRead ∉ requestOnResponse 0 503 none ∧
     (∀ v, TEv.receive v ∉ requestOnResponse 0 503 none)) :=
  ⟨by decide,
   (C10_resolve_before_body 0 204 none).1 (by decide),
   by decide,
   (C10_resolve_before_body 0 503 none).2 (by decide)⟩

end Halley
